import Mathlib

/-!
Verification of the deferred-execution primitive `bmalloc::AsyncTask`
(Source/bmalloc/bmalloc/AsyncTask.h).

The C++ class is a concurrent state machine: an atomic register `m_state`
over five values, two controller operations `run()` / `stop()`, and a
worker-thread loop `threadRunLoop()` consisting of four ordered
compare-and-swap attempts.  We embed it as a labelled small-step
transition system:

  * `State` is the enum at AsyncTask.h line 48.
  * `ThreadPC` is a program counter through `threadRunLoop` (lines
    137-166); each CAS is one atomic step, and the invocation of the
    work callable is bracketed by the `invoke` location (entered by a
    successful `RunRequested -> Running` CAS at line 149, left when the
    callable returns, line 150).
  * `CtrlPC` is a program counter through the controller operations
    `run()` (lines 86-92), `runSlowCase()` (lines 112-129) and `stop()`
    (lines 94-110).  Controller calls are serialized with respect to one
    another (the header's BASSERT and the specification treat
    overlapping controller calls as unsupported usage) but interleave
    freely, step by step, with the worker thread.
  * `Config.workers` is the list of every worker thread ever spawned for
    the instance, most recent first; `m_thread` always denotes the head.
    A spawn (line 128) cons-es a fresh thread at `cas1`; detached old
    threads stay in the list and may in principle still take steps, so
    mutual exclusion of invocations is proved, not assumed.
  * `m_thread_joinable` models `m_thread.joinable()`.

A CAS fails exactly when the register differs from the expected value
(the specification's reading of the loop); the timed predicate wait at
line 155 is modelled by the always-enabled `wake` step, since the
timeout may elapse at any moment and the predicate re-check happens at
the following CAS.  `BASSERT` (line 125) is a debug-only check with no
release-build effect, so the exchange at line 115 simply captures the
previous value; theorems about the assertion talk about that captured
value.
-/

set_option autoImplicit false

namespace AsyncTask

/-- State: the five values of the atomic register `m_state`
(AsyncTask.h line 48: `enum State { Exited, ExitRequested, Sleeping,
Running, RunRequested }`). -/
inductive State
  | Exited
  | ExitRequested
  | Sleeping
  | Running
  | RunRequested
deriving DecidableEq, Repr

/-- Program counter of one worker thread executing `threadRunLoop`
(lines 147-165): about to attempt the first CAS (`cas1`), executing the
work callable (`invoke`), about to attempt the second CAS (`cas2`),
blocked in the timed predicate wait (`sleeping`), about to attempt the
third / fourth CAS (`cas3` / `cas4`), or returned (`done`). -/
inductive ThreadPC
  | cas1
  | invoke
  | cas2
  | sleeping
  | cas3
  | cas4
  | done
deriving DecidableEq, Repr

/-- Program counter of the serialized controller: between calls
(`idle`), inside `runSlowCase` before the exchange at line 115
(`runSlow`), about to notify after capturing `Sleeping` (`runNotify`,
lines 119-122), about to detach/spawn after the BASSERT (`runSpawn`,
lines 126-128), and the corresponding positions inside `stop`
(`stopNotify`, lines 101-104; `stopJoin`, lines 108-109). -/
inductive CtrlPC
  | idle
  | runSlow
  | runNotify
  | runSpawn
  | stopNotify
  | stopJoin
deriving DecidableEq, Repr

/-- A configuration of one `AsyncTask` instance together with its worker
threads and the serialized controller. -/
structure Config where
  m_state : State
  workers : List ThreadPC
  m_thread_joinable : Bool
  ctrl : CtrlPC
deriving DecidableEq, Repr

/-- The configuration produced by the constructor (lines 70-78):
`m_state(Exited)`, a default-constructed (non-joinable) `m_thread`, no
worker thread, controller between calls. -/
def init : Config := ⟨State.Exited, [], false, CtrlPC.idle⟩

/-- Micro-steps of one worker thread: for each of the four CAS attempts
a success (`T`) and a failure (`F`) variant, the return of the work
callable (`invokeEnd`), and leaving the timed wait (`wake`). -/
inductive WLab
  | cas1T
  | cas1F
  | invokeEnd
  | cas2T
  | cas2F
  | wake
  | cas3T
  | cas3F
  | cas4T
  | cas4F
deriving DecidableEq, Repr

/-- Labels of the transition system: a micro-step of worker thread
number `i`, or one atomic controller action. `runFastHit` is the
fast-path read at line 89 seeing `RunRequested` and returning;
`runFastMiss` is that read seeing anything else and entering
`runSlowCase`; `runExch` is the exchange at line 115; `stopExch` the
exchange at line 98; `stopRet` the join (or its skip) at lines 108-109
followed by the return. -/
inductive Lab
  | w (i : Nat) (wl : WLab)
  | runFastHit
  | runFastMiss
  | runExch
  | runNotifyStep
  | runSpawnStep
  | stopExch
  | stopNotifyStep
  | stopRet
deriving DecidableEq, Repr

/-- One micro-step of a worker thread at program counter `pc` with the
register holding `reg`: the body of `threadRunLoop` (lines 147-165).
Each CAS succeeds exactly when the register equals the expected value,
in which case it stores the new value and control proceeds to the
success continuation; on failure it falls through to the next attempt.
`cas4F` wraps back to the top of the `while (1)` loop. -/
def threadStep (reg : State) (pc : ThreadPC) (wl : WLab) :
    Option (State × ThreadPC) :=
  match wl, pc with
  | .cas1T, .cas1 =>
      if reg = State.RunRequested then some (State.Running, .invoke) else none
  | .cas1F, .cas1 =>
      if reg = State.RunRequested then none else some (reg, .cas2)
  | .invokeEnd, .invoke => some (reg, .cas2)
  | .cas2T, .cas2 =>
      if reg = State.Running then some (State.Sleeping, .sleeping) else none
  | .cas2F, .cas2 =>
      if reg = State.Running then none else some (reg, .cas3)
  | .wake, .sleeping => some (reg, .cas3)
  | .cas3T, .cas3 =>
      if reg = State.Sleeping then some (State.Exited, .done) else none
  | .cas3F, .cas3 =>
      if reg = State.Sleeping then none else some (reg, .cas4)
  | .cas4T, .cas4 =>
      if reg = State.ExitRequested then some (State.Exited, .done) else none
  | .cas4F, .cas4 =>
      if reg = State.ExitRequested then none else some (reg, .cas1)
  | _, _ => none

/-- Where `runSlowCase` goes after the exchange at line 115, as a
function of the captured previous value: previous `RunRequested` or
`Running` return at line 117; previous `Sleeping` notifies (lines
119-122); previous `Exited` reaches the spawn (lines 126-128).  A
previous `ExitRequested` fails the debug-only `BASSERT` at line 125 and,
in a release build, also falls through to the spawn. -/
def runSlowDest : State → CtrlPC
  | State.RunRequested => CtrlPC.idle
  | State.Running => CtrlPC.idle
  | State.Sleeping => CtrlPC.runNotify
  | State.Exited => CtrlPC.runSpawn
  | State.ExitRequested => CtrlPC.runSpawn

/-- Where `stop` goes after the exchange at line 98: a captured
`Sleeping` first notifies the condition (lines 101-104), anything else
proceeds directly to the join (lines 108-109). -/
def stopDest (old : State) : CtrlPC :=
  if old = State.Sleeping then CtrlPC.stopNotify else CtrlPC.stopJoin

/-- Whether `m_thread.join()` at line 109 can return: either `m_thread` is not
joinable (the branch at line 108 is skipped) or the thread it denotes -
the most recently spawned worker, the head of `workers` - has returned
from `threadRunLoop`. -/
def joinReady (c : Config) : Bool :=
  !c.m_thread_joinable ||
    (match c.workers.head? with
     | some ThreadPC.done => true
     | _ => false)

/-- The labelled transition function of the whole system.  Returns
`none` when the label is not enabled in `c`. -/
def step (c : Config) (l : Lab) : Option Config :=
  match l with
  | .w i wl =>
      (c.workers.get? i).bind fun pc =>
        (threadStep c.m_state pc wl).map fun rp =>
          { c with m_state := rp.1, workers := c.workers.set i rp.2 }
  | .runFastHit =>
      if c.ctrl = CtrlPC.idle ∧ c.m_state = State.RunRequested then
        some c
      else none
  | .runFastMiss =>
      if c.ctrl = CtrlPC.idle ∧ c.m_state ≠ State.RunRequested then
        some { c with ctrl := CtrlPC.runSlow }
      else none
  | .runExch =>
      if c.ctrl = CtrlPC.runSlow then
        some { c with m_state := State.RunRequested,
                      ctrl := runSlowDest c.m_state }
      else none
  | .runNotifyStep =>
      if c.ctrl = CtrlPC.runNotify then
        some { c with ctrl := CtrlPC.idle }
      else none
  | .runSpawnStep =>
      if c.ctrl = CtrlPC.runSpawn then
        some { c with ctrl := CtrlPC.idle,
                      workers := ThreadPC.cas1 :: c.workers,
                      m_thread_joinable := true }
      else none
  | .stopExch =>
      if c.ctrl = CtrlPC.idle then
        some { c with m_state := State.ExitRequested,
                      ctrl := stopDest c.m_state }
      else none
  | .stopNotifyStep =>
      if c.ctrl = CtrlPC.stopNotify then
        some { c with ctrl := CtrlPC.stopJoin }
      else none
  | .stopRet =>
      if c.ctrl = CtrlPC.stopJoin ∧ joinReady c = true then
        some { c with ctrl := CtrlPC.idle, m_thread_joinable := false }
      else none

/-- Run a list of labels from a configuration. -/
def steps : Config → List Lab → Option Config
  | c, [] => some c
  | c, l :: ls =>
      match step c l with
      | some c' => steps c' ls
      | none => none

/-- A configuration is reachable when some interleaving of controller
actions and worker micro-steps produces it from the freshly constructed
instance. -/
def Reachable (c : Config) : Prop := ∃ L : List Lab, steps init L = some c

/-- Which register values are possible while a worker thread stands at a
given program counter (the heart of the ratchet invariant). -/
def pcCompat (reg : State) : ThreadPC → Prop
  | .cas1 => reg = State.RunRequested ∨ reg = State.ExitRequested
  | .invoke =>
      reg = State.Running ∨ reg = State.RunRequested ∨
        reg = State.ExitRequested
  | .cas2 =>
      reg = State.Running ∨ reg = State.RunRequested ∨
        reg = State.ExitRequested
  | .sleeping =>
      reg = State.Sleeping ∨ reg = State.RunRequested ∨
        reg = State.ExitRequested
  | .cas3 =>
      reg = State.Sleeping ∨ reg = State.RunRequested ∨
        reg = State.ExitRequested
  | .cas4 => reg = State.RunRequested ∨ reg = State.ExitRequested
  | .done => True

/-- The global inductive invariant of the system. -/
structure Inv (c : Config) : Prop where
  tailDone : ∀ w ∈ c.workers.tail, w = ThreadPC.done
  notJoinableDone :
    c.m_thread_joinable = false → ∀ w ∈ c.workers, w = ThreadPC.done
  headOK : ∀ pc, c.workers.head? = some pc → pcCompat c.m_state pc
  runningHead :
    c.m_state = State.Running →
      c.workers.head? = some ThreadPC.invoke ∨
        c.workers.head? = some ThreadPC.cas2
  sleepingHead :
    c.m_state = State.Sleeping →
      c.workers.head? = some ThreadPC.sleeping ∨
        c.workers.head? = some ThreadPC.cas3
  exitedDone :
    c.m_state = State.Exited → ∀ w ∈ c.workers, w = ThreadPC.done
  spawnOK :
    c.ctrl = CtrlPC.runSpawn →
      c.m_state = State.RunRequested ∧ ∀ w ∈ c.workers, w = ThreadPC.done
  stopReg :
    c.ctrl = CtrlPC.stopNotify ∨ c.ctrl = CtrlPC.stopJoin →
      c.m_state = State.ExitRequested ∨ c.m_state = State.Exited
  exitReqDone :
    c.m_state = State.ExitRequested → c.ctrl ≠ CtrlPC.stopNotify →
      c.ctrl ≠ CtrlPC.stopJoin → ∀ w ∈ c.workers, w = ThreadPC.done

/-- Labels that begin an invocation of the work callable: the successful
`RunRequested -> Running` CAS at line 149. -/
def isInvokeStart : Lab → Bool
  | Lab.w _ WLab.cas1T => true
  | _ => false

/-- Labels belonging to the worker thread(s). -/
def isThreadLab : Lab → Bool
  | Lab.w _ _ => true
  | _ => false

/-- Labels belonging to a `run()` call (lines 86-92 and 112-129). -/
def isRunLab : Lab → Bool
  | Lab.runFastHit => true
  | Lab.runFastMiss => true
  | Lab.runExch => true
  | Lab.runNotifyStep => true
  | Lab.runSpawnStep => true
  | _ => false

/-- Labels belonging to a `stop()` call (lines 94-110). -/
def isStopLab : Lab → Bool
  | Lab.stopExch => true
  | Lab.stopNotifyStep => true
  | Lab.stopRet => true
  | _ => false

/-! ### Basic facts about the step relation -/

theorem threadStep_done (reg : State) (wl : WLab) :
    threadStep reg ThreadPC.done wl = none := by
  cases wl <;> rfl

theorem mem_of_get?_eq {α : Type} {l : List α} {n : Nat} {a : α}
    (h : l.get? n = some a) : a ∈ l := by
  induction l generalizing n with
  | nil => simp [List.get?] at h
  | cons x xs ih =>
    cases n with
    | zero =>
        simp [List.get?] at h
        simp [h]
    | succ m =>
        simp only [List.get?] at h
        exact List.mem_cons_of_mem _ (ih h)

/-- Every complete characterization of a successful worker micro-step. -/
theorem threadStep_cases {reg : State} {pc : ThreadPC} {wl : WLab}
    {s' : State} {pc' : ThreadPC}
    (h : threadStep reg pc wl = some (s', pc')) :
    (pc = ThreadPC.cas1 ∧ wl = WLab.cas1T ∧ reg = State.RunRequested ∧
      s' = State.Running ∧ pc' = ThreadPC.invoke) ∨
    (pc = ThreadPC.cas1 ∧ wl = WLab.cas1F ∧ reg ≠ State.RunRequested ∧
      s' = reg ∧ pc' = ThreadPC.cas2) ∨
    (pc = ThreadPC.invoke ∧ wl = WLab.invokeEnd ∧ s' = reg ∧
      pc' = ThreadPC.cas2) ∨
    (pc = ThreadPC.cas2 ∧ wl = WLab.cas2T ∧ reg = State.Running ∧
      s' = State.Sleeping ∧ pc' = ThreadPC.sleeping) ∨
    (pc = ThreadPC.cas2 ∧ wl = WLab.cas2F ∧ reg ≠ State.Running ∧
      s' = reg ∧ pc' = ThreadPC.cas3) ∨
    (pc = ThreadPC.sleeping ∧ wl = WLab.wake ∧ s' = reg ∧
      pc' = ThreadPC.cas3) ∨
    (pc = ThreadPC.cas3 ∧ wl = WLab.cas3T ∧ reg = State.Sleeping ∧
      s' = State.Exited ∧ pc' = ThreadPC.done) ∨
    (pc = ThreadPC.cas3 ∧ wl = WLab.cas3F ∧ reg ≠ State.Sleeping ∧
      s' = reg ∧ pc' = ThreadPC.cas4) ∨
    (pc = ThreadPC.cas4 ∧ wl = WLab.cas4T ∧ reg = State.ExitRequested ∧
      s' = State.Exited ∧ pc' = ThreadPC.done) ∨
    (pc = ThreadPC.cas4 ∧ wl = WLab.cas4F ∧ reg ≠ State.ExitRequested ∧
      s' = reg ∧ pc' = ThreadPC.cas1) := by
  cases wl <;> cases pc <;> simp only [threadStep] at h <;>
    (try split at h) <;> simp_all

/-- A successful worker micro-step happens at the head worker, and its
shape. -/
theorem step_w_elim {c : Config} {i : Nat} {wl : WLab} {c' : Config}
    (hI : Inv c) (h : step c (Lab.w i wl) = some c') :
    ∃ pc t s' pc', c.workers = pc :: t ∧ i = 0 ∧
      threadStep c.m_state pc wl = some (s', pc') ∧
      c' = { c with m_state := s', workers := pc' :: t } := by
  simp only [step, Option.bind_eq_some, Option.map_eq_some'] at h
  obtain ⟨pc, hg, rp, hw, hc'⟩ := h
  have hpc : pc ≠ ThreadPC.done := by
    intro hd
    rw [hd, threadStep_done] at hw
    cases hw
  have hi0 : i = 0 := by
    cases i with
    | zero => rfl
    | succ m =>
        exfalso
        cases hws : c.workers with
        | nil => rw [hws] at hg; simp [List.get?] at hg
        | cons a t =>
            rw [hws] at hg
            simp only [List.get?] at hg
            exact hpc (hI.tailDone pc (by rw [hws]; exact mem_of_get?_eq hg))
  subst hi0
  cases hws : c.workers with
  | nil => rw [hws] at hg; simp [List.get?] at hg
  | cons a t =>
      rw [hws] at hg
      simp only [List.get?, Option.some.injEq] at hg
      refine ⟨a, t, rp.1, rp.2, rfl, rfl, ?_, ?_⟩
      · rw [hg]; exact hw
      · rw [← hc', hws]; rfl

theorem pcCompat_runRequested (pc : ThreadPC) :
    pcCompat State.RunRequested pc := by
  cases pc <;> simp [pcCompat]

theorem pcCompat_exitRequested (pc : ThreadPC) :
    pcCompat State.ExitRequested pc := by
  cases pc <;> simp [pcCompat]

/-- When every worker thread has returned, no worker micro-step is
enabled (in particular the work callable cannot run again). -/
theorem no_thread_step_of_allDone {c : Config}
    (h : ∀ w ∈ c.workers, w = ThreadPC.done) (i : Nat) (wl : WLab) :
    step c (Lab.w i wl) = none := by
  cases hg : c.workers.get? i with
  | none => simp only [step]; rw [hg]; rfl
  | some pc =>
      have : pc = ThreadPC.done := h pc (mem_of_get?_eq hg)
      subst this
      simp only [step]; rw [hg]
      simp [threadStep_done]

theorem inv_init : Inv init := by
  refine ⟨?_, ?_, ?_, ?_, ?_, ?_, ?_, ?_, ?_⟩ <;> simp [init, pcCompat]

/-- Preservation: every enabled step of the system maintains the global
invariant. -/
theorem inv_step {c : Config} {l : Lab} {c' : Config}
    (hI : Inv c) (h : step c l = some c') : Inv c' := by
  obtain ⟨reg, ws, jb, ct⟩ := c
  cases l with
  | w i wl =>
      obtain ⟨pc, t, s', pc', hws, hi0, hw, hc'⟩ := step_w_elim hI h
      subst hc'
      simp only at hws
      subst hws
      have htail : ∀ w ∈ t, w = ThreadPC.done := hI.tailDone
      have hheadmem : pc ∈ pc :: t := List.mem_cons_self pc t
      have hcompat : pcCompat reg pc := hI.headOK pc rfl
      rcases threadStep_cases hw with
        ⟨hpc, hwl, hreg, hs, hp⟩ | ⟨hpc, hwl, hreg, hs, hp⟩ |
        ⟨hpc, hwl, hs, hp⟩ | ⟨hpc, hwl, hreg, hs, hp⟩ |
        ⟨hpc, hwl, hreg, hs, hp⟩ | ⟨hpc, hwl, hs, hp⟩ |
        ⟨hpc, hwl, hreg, hs, hp⟩ | ⟨hpc, hwl, hreg, hs, hp⟩ |
        ⟨hpc, hwl, hreg, hs, hp⟩ | ⟨hpc, hwl, hreg, hs, hp⟩
      -- 1: cas1T, RunRequested -> Running, pc cas1 -> invoke
      · subst hpc hreg hs hp
        refine ⟨htail, ?_, ?_, ?_, ?_, ?_, ?_, ?_, ?_⟩
        · intro hj
          exact absurd (hI.notJoinableDone hj _ hheadmem) (by decide)
        · intro pc0 hq
          cases hq
          exact Or.inl rfl
        · intro _; left; rfl
        · intro hx; cases hx
        · intro hx; cases hx
        · intro h7
          rcases hI.spawnOK h7 with ⟨_, hall⟩
          exact absurd (hall _ hheadmem) (by decide)
        · intro h8
          rcases hI.stopReg h8 with h8 | h8 <;> cases h8
        · intro hx; cases hx
      -- 2: cas1F, pc cas1 -> cas2, register unchanged (ExitRequested)
      · subst hpc hwl hs hp
        have hco : s' = State.RunRequested ∨ s' = State.ExitRequested := hcompat
        have hrn : s' ≠ State.RunRequested := hreg
        have hregE : s' = State.ExitRequested := by
          rcases hco with h0 | h0
          · exact absurd h0 hrn
          · exact h0
        subst hregE
        refine ⟨htail, ?_, ?_, ?_, ?_, ?_, ?_, ?_, ?_⟩
        · intro hj
          exact absurd (hI.notJoinableDone hj _ hheadmem) (by decide)
        · intro pc0 hq
          cases hq
          exact Or.inr (Or.inr rfl)
        · intro hx; cases hx
        · intro hx; cases hx
        · intro hx; cases hx
        · intro h7
          rcases hI.spawnOK h7 with ⟨h70, _⟩
          cases h70
        · intro h8
          exact hI.stopReg h8
        · intro _ hn1 hn2
          have hn1' : ct ≠ CtrlPC.stopNotify := hn1
          have hn2' : ct ≠ CtrlPC.stopJoin := hn2
          exact absurd (hI.exitReqDone rfl hn1' hn2' _ hheadmem) (by decide)
      -- 3: invokeEnd, pc invoke -> cas2, register unchanged
      · subst hpc hwl hs hp
        have hco : s' = State.Running ∨ s' = State.RunRequested ∨
            s' = State.ExitRequested := hcompat
        refine ⟨htail, ?_, ?_, ?_, ?_, ?_, ?_, ?_, ?_⟩
        · intro hj
          exact absurd (hI.notJoinableDone hj _ hheadmem) (by decide)
        · intro pc0 hq
          cases hq
          exact hco
        · intro _; right; rfl
        · intro hx
          have hx2 : s' = State.Sleeping := hx
          rcases hco with h0 | h0 | h0 <;> rw [hx2] at h0 <;> cases h0
        · intro hx
          have hx2 : s' = State.Exited := hx
          rcases hco with h0 | h0 | h0 <;> rw [hx2] at h0 <;> cases h0
        · intro h7
          rcases hI.spawnOK h7 with ⟨_, hall⟩
          exact absurd (hall _ hheadmem) (by decide)
        · intro h8
          exact hI.stopReg h8
        · intro h9 hn1 hn2
          have h9' : s' = State.ExitRequested := h9
          have hn1' : ct ≠ CtrlPC.stopNotify := hn1
          have hn2' : ct ≠ CtrlPC.stopJoin := hn2
          exact absurd (hI.exitReqDone h9' hn1' hn2' _ hheadmem) (by decide)
      -- 4: cas2T, Running -> Sleeping, pc cas2 -> sleeping
      · subst hpc hreg hs hp
        refine ⟨htail, ?_, ?_, ?_, ?_, ?_, ?_, ?_, ?_⟩
        · intro hj
          exact absurd (hI.notJoinableDone hj _ hheadmem) (by decide)
        · intro pc0 hq
          cases hq
          exact Or.inl rfl
        · intro hx; cases hx
        · intro _; left; rfl
        · intro hx; cases hx
        · intro h7
          rcases hI.spawnOK h7 with ⟨h70, _⟩
          cases h70
        · intro h8
          rcases hI.stopReg h8 with h8 | h8 <;> cases h8
        · intro hx; cases hx
      -- 5: cas2F, pc cas2 -> cas3, register unchanged (not Running)
      · subst hpc hwl hs hp
        have hco : s' = State.Running ∨ s' = State.RunRequested ∨
            s' = State.ExitRequested := hcompat
        have hrn : s' ≠ State.Running := hreg
        have hco2 : s' = State.RunRequested ∨ s' = State.ExitRequested := by
          rcases hco with h0 | h0 | h0
          · exact absurd h0 hrn
          · exact Or.inl h0
          · exact Or.inr h0
        refine ⟨htail, ?_, ?_, ?_, ?_, ?_, ?_, ?_, ?_⟩
        · intro hj
          exact absurd (hI.notJoinableDone hj _ hheadmem) (by decide)
        · intro pc0 hq
          cases hq
          exact Or.inr hco2
        · intro hx
          have hx2 : s' = State.Running := hx
          rcases hco2 with h0 | h0 <;> rw [hx2] at h0 <;> cases h0
        · intro hx
          have hx2 : s' = State.Sleeping := hx
          rcases hco2 with h0 | h0 <;> rw [hx2] at h0 <;> cases h0
        · intro hx
          have hx2 : s' = State.Exited := hx
          rcases hco2 with h0 | h0 <;> rw [hx2] at h0 <;> cases h0
        · intro h7
          rcases hI.spawnOK h7 with ⟨_, hall⟩
          exact absurd (hall _ hheadmem) (by decide)
        · intro h8
          exact hI.stopReg h8
        · intro h9 hn1 hn2
          have h9' : s' = State.ExitRequested := h9
          have hn1' : ct ≠ CtrlPC.stopNotify := hn1
          have hn2' : ct ≠ CtrlPC.stopJoin := hn2
          exact absurd (hI.exitReqDone h9' hn1' hn2' _ hheadmem) (by decide)
      -- 6: wake, pc sleeping -> cas3, register unchanged
      · subst hpc hwl hs hp
        have hco : s' = State.Sleeping ∨ s' = State.RunRequested ∨
            s' = State.ExitRequested := hcompat
        refine ⟨htail, ?_, ?_, ?_, ?_, ?_, ?_, ?_, ?_⟩
        · intro hj
          exact absurd (hI.notJoinableDone hj _ hheadmem) (by decide)
        · intro pc0 hq
          cases hq
          exact hco
        · intro hx
          have hx2 : s' = State.Running := hx
          rcases hco with h0 | h0 | h0 <;> rw [hx2] at h0 <;> cases h0
        · intro _; right; rfl
        · intro hx
          have hx2 : s' = State.Exited := hx
          rcases hco with h0 | h0 | h0 <;> rw [hx2] at h0 <;> cases h0
        · intro h7
          rcases hI.spawnOK h7 with ⟨_, hall⟩
          exact absurd (hall _ hheadmem) (by decide)
        · intro h8
          exact hI.stopReg h8
        · intro h9 hn1 hn2
          have h9' : s' = State.ExitRequested := h9
          have hn1' : ct ≠ CtrlPC.stopNotify := hn1
          have hn2' : ct ≠ CtrlPC.stopJoin := hn2
          exact absurd (hI.exitReqDone h9' hn1' hn2' _ hheadmem) (by decide)
      -- 7: cas3T, Sleeping -> Exited, pc cas3 -> done
      · subst hpc hreg hs hp
        refine ⟨htail, ?_, ?_, ?_, ?_, ?_, ?_, ?_, ?_⟩
        · intro _ w hwm
          rcases List.mem_cons.mp hwm with h0 | h0
          · exact h0
          · exact htail w h0
        · intro pc0 hq
          cases hq
          trivial
        · intro hx; cases hx
        · intro hx; cases hx
        · intro _ w hwm
          rcases List.mem_cons.mp hwm with h0 | h0
          · exact h0
          · exact htail w h0
        · intro h7
          rcases hI.spawnOK h7 with ⟨h70, _⟩
          cases h70
        · intro h8
          rcases hI.stopReg h8 with h8 | h8 <;> cases h8
        · intro hx; cases hx
      -- 8: cas3F, pc cas3 -> cas4, register unchanged (not Sleeping)
      · subst hpc hwl hs hp
        have hco : s' = State.Sleeping ∨ s' = State.RunRequested ∨
            s' = State.ExitRequested := hcompat
        have hrn : s' ≠ State.Sleeping := hreg
        have hco2 : s' = State.RunRequested ∨ s' = State.ExitRequested := by
          rcases hco with h0 | h0 | h0
          · exact absurd h0 hrn
          · exact Or.inl h0
          · exact Or.inr h0
        refine ⟨htail, ?_, ?_, ?_, ?_, ?_, ?_, ?_, ?_⟩
        · intro hj
          exact absurd (hI.notJoinableDone hj _ hheadmem) (by decide)
        · intro pc0 hq
          cases hq
          exact hco2
        · intro hx
          have hx2 : s' = State.Running := hx
          rcases hco2 with h0 | h0 <;> rw [hx2] at h0 <;> cases h0
        · intro hx
          have hx2 : s' = State.Sleeping := hx
          rcases hco2 with h0 | h0 <;> rw [hx2] at h0 <;> cases h0
        · intro hx
          have hx2 : s' = State.Exited := hx
          rcases hco2 with h0 | h0 <;> rw [hx2] at h0 <;> cases h0
        · intro h7
          rcases hI.spawnOK h7 with ⟨_, hall⟩
          exact absurd (hall _ hheadmem) (by decide)
        · intro h8
          exact hI.stopReg h8
        · intro h9 hn1 hn2
          have h9' : s' = State.ExitRequested := h9
          have hn1' : ct ≠ CtrlPC.stopNotify := hn1
          have hn2' : ct ≠ CtrlPC.stopJoin := hn2
          exact absurd (hI.exitReqDone h9' hn1' hn2' _ hheadmem) (by decide)
      -- 9: cas4T, ExitRequested -> Exited, pc cas4 -> done
      · subst hpc hreg hs hp
        refine ⟨htail, ?_, ?_, ?_, ?_, ?_, ?_, ?_, ?_⟩
        · intro _ w hwm
          rcases List.mem_cons.mp hwm with h0 | h0
          · exact h0
          · exact htail w h0
        · intro pc0 hq
          cases hq
          trivial
        · intro hx; cases hx
        · intro hx; cases hx
        · intro _ w hwm
          rcases List.mem_cons.mp hwm with h0 | h0
          · exact h0
          · exact htail w h0
        · intro h7
          rcases hI.spawnOK h7 with ⟨h70, _⟩
          cases h70
        · intro _
          right; rfl
        · intro hx; cases hx
      -- 10: cas4F, pc cas4 -> cas1, register unchanged (RunRequested)
      · subst hpc hwl hs hp
        have hco : s' = State.RunRequested ∨ s' = State.ExitRequested := hcompat
        have hrn : s' ≠ State.ExitRequested := hreg
        have hregR : s' = State.RunRequested := by
          rcases hco with h0 | h0
          · exact h0
          · exact absurd h0 hrn
        subst hregR
        refine ⟨htail, ?_, ?_, ?_, ?_, ?_, ?_, ?_, ?_⟩
        · intro hj
          exact absurd (hI.notJoinableDone hj _ hheadmem) (by decide)
        · intro pc0 hq
          cases hq
          exact Or.inl rfl
        · intro hx; cases hx
        · intro hx; cases hx
        · intro hx; cases hx
        · intro h7
          rcases hI.spawnOK h7 with ⟨_, hall⟩
          exact absurd (hall _ hheadmem) (by decide)
        · intro h8
          rcases hI.stopReg h8 with h8 | h8 <;> cases h8
        · intro hx; cases hx
  | runFastHit =>
      simp only [step] at h
      split at h
      · cases h; exact hI
      · cases h
  | runFastMiss =>
      simp only [step] at h
      split at h
      · next hg =>
          cases h
          obtain ⟨h1, _⟩ := hg
          have h1' : ct = CtrlPC.idle := h1
          subst h1'
          refine ⟨hI.tailDone, hI.notJoinableDone, hI.headOK,
            hI.runningHead, hI.sleepingHead, hI.exitedDone, ?_, ?_, ?_⟩
          · intro h7; cases h7
          · intro h8; rcases h8 with h8 | h8 <;> cases h8
          · intro h9 _ _
            exact hI.exitReqDone h9 (by intro hh; cases hh) (by intro hh; cases hh)
      · cases h
  | runExch =>
      simp only [step] at h
      split at h
      · next hctrl =>
          cases h
          have hctrl' : ct = CtrlPC.runSlow := hctrl
          subst hctrl'
          refine ⟨hI.tailDone, hI.notJoinableDone, ?_, ?_, ?_, ?_, ?_, ?_, ?_⟩
          · intro pc0 hq
            exact pcCompat_runRequested pc0
          · intro hx; cases hx
          · intro hx; cases hx
          · intro hx; cases hx
          · intro h7
            refine ⟨rfl, ?_⟩
            cases hreg : reg with
            | Exited => exact hI.exitedDone hreg
            | ExitRequested =>
                exact hI.exitReqDone hreg (by intro hh; cases hh) (by intro hh; cases hh)
            | Sleeping => rw [hreg] at h7; cases h7
            | Running => rw [hreg] at h7; cases h7
            | RunRequested => rw [hreg] at h7; cases h7
          · intro h8
            rcases h8 with h8 | h8 <;> cases hreg : reg <;>
              rw [hreg] at h8 <;> cases h8
          · intro hx; cases hx
      · cases h
  | runNotifyStep =>
      simp only [step] at h
      split at h
      · next hctrl =>
          cases h
          have hctrl' : ct = CtrlPC.runNotify := hctrl
          subst hctrl'
          refine ⟨hI.tailDone, hI.notJoinableDone, hI.headOK,
            hI.runningHead, hI.sleepingHead, hI.exitedDone, ?_, ?_, ?_⟩
          · intro h7; cases h7
          · intro h8; rcases h8 with h8 | h8 <;> cases h8
          · intro h9 _ _
            exact hI.exitReqDone h9 (by intro hh; cases hh) (by intro hh; cases hh)
      · cases h
  | runSpawnStep =>
      simp only [step] at h
      split at h
      · next hctrl =>
          cases h
          obtain ⟨hreg, hall⟩ := hI.spawnOK hctrl
          have hreg' : reg = State.RunRequested := hreg
          subst hreg'
          refine ⟨hall, ?_, ?_, ?_, ?_, ?_, ?_, ?_, ?_⟩
          · intro hx; cases hx
          · intro pc0 hq
            cases hq
            exact Or.inl rfl
          · intro hx; cases hx
          · intro hx; cases hx
          · intro hx; cases hx
          · intro h7; cases h7
          · intro h8; rcases h8 with h8 | h8 <;> cases h8
          · intro hx; cases hx
      · cases h
  | stopExch =>
      simp only [step] at h
      split at h
      · next hctrl =>
          cases h
          have hctrl' : ct = CtrlPC.idle := hctrl
          subst hctrl'
          refine ⟨hI.tailDone, hI.notJoinableDone, ?_, ?_, ?_, ?_, ?_, ?_, ?_⟩
          · intro pc0 hq
            exact pcCompat_exitRequested pc0
          · intro hx; cases hx
          · intro hx; cases hx
          · intro hx; cases hx
          · intro h7
            have h7' : stopDest reg = CtrlPC.runSpawn := h7
            unfold stopDest at h7'
            by_cases hS : reg = State.Sleeping
            · rw [if_pos hS] at h7'; cases h7'
            · rw [if_neg hS] at h7'; cases h7'
          · intro _
            left; rfl
          · intro _ hn1 hn2
            exfalso
            have hn1' : stopDest reg ≠ CtrlPC.stopNotify := hn1
            have hn2' : stopDest reg ≠ CtrlPC.stopJoin := hn2
            unfold stopDest at hn1' hn2'
            by_cases hS : reg = State.Sleeping
            · rw [if_pos hS] at hn1'; exact hn1' rfl
            · rw [if_neg hS] at hn2'; exact hn2' rfl
      · cases h
  | stopNotifyStep =>
      simp only [step] at h
      split at h
      · next hctrl =>
          cases h
          have hctrl' : ct = CtrlPC.stopNotify := hctrl
          subst hctrl'
          refine ⟨hI.tailDone, hI.notJoinableDone, hI.headOK,
            hI.runningHead, hI.sleepingHead, hI.exitedDone, ?_, ?_, ?_⟩
          · intro h7; cases h7
          · intro _; exact hI.stopReg (Or.inl rfl)
          · intro _ _ hn2; exact absurd rfl hn2
      · cases h
  | stopRet =>
      simp only [step] at h
      split at h
      · next hg =>
          cases h
          obtain ⟨hctrl, hjr⟩ := hg
          have hctrl' : ct = CtrlPC.stopJoin := hctrl
          subst hctrl'
          have hall : ∀ w ∈ ws, w = ThreadPC.done := by
            cases hj : jb with
            | false => exact hI.notJoinableDone hj
            | true =>
                subst hj
                have hjr' :
                    (match ws.head? with
                     | some ThreadPC.done => true
                     | _ => false) = true := by
                  have hjr2 := hjr
                  simp only [joinReady, Bool.not_true, Bool.false_or] at hjr2
                  exact hjr2
                cases hws : ws with
                | nil => intro w hwm; cases hwm
                | cons a t =>
                    have ha : a = ThreadPC.done := by
                      cases a <;> simp_all
                    intro w hwm
                    rcases List.mem_cons.mp hwm with h0 | h0
                    · rw [h0, ha]
                    · exact hI.tailDone w (by rw [hws]; exact h0)
          have hregOK : reg = State.ExitRequested ∨ reg = State.Exited :=
            hI.stopReg (Or.inr rfl)
          refine ⟨hI.tailDone, ?_, hI.headOK, ?_, ?_, hI.exitedDone,
            ?_, ?_, ?_⟩
          · intro _; exact hall
          · intro hx
            have hx2 : reg = State.Running := hx
            rcases hregOK with h0 | h0 <;> rw [hx2] at h0 <;> cases h0
          · intro hx
            have hx2 : reg = State.Sleeping := hx
            rcases hregOK with h0 | h0 <;> rw [hx2] at h0 <;> cases h0
          · intro h7; cases h7
          · intro h8; rcases h8 with h8 | h8 <;> cases h8
          · intro _ _ _; exact hall
      · cases h

theorem inv_steps {c c' : Config} (L : List Lab)
    (h : steps c L = some c') (hI : Inv c) : Inv c' := by
  induction L generalizing c with
  | nil => cases h; exact hI
  | cons l ls ih =>
      simp only [steps] at h
      cases hs : step c l with
      | none => rw [hs] at h; cases h
      | some c1 =>
          rw [hs] at h
          exact ih h (inv_step hI hs)

/-- Every reachable configuration satisfies the global invariant. -/
theorem reachable_inv {c : Config} (h : Reachable c) : Inv c := by
  obtain ⟨L, hL⟩ := h
  exact inv_steps L hL inv_init

theorem countP_invoke_zero_of_allDone (t : List ThreadPC)
    (h : ∀ w ∈ t, w = ThreadPC.done) :
    t.countP (fun w => decide (w = ThreadPC.invoke)) = 0 := by
  induction t with
  | nil => rfl
  | cons a t ih =>
      have ha : a = ThreadPC.done := h a (List.mem_cons_self a t)
      subst ha
      rw [List.countP_cons]
      simp [ih (fun w hw => h w (List.mem_cons_of_mem _ hw))]

/-! ### Claim theorems -/

/-- C9: construction of a task (lines 70-78) yields an instance whose
state register reads `Exited`, with no joinable worker thread, no worker
thread at all, an idle controller, and no worker micro-step enabled - in
particular the work callable is not invoked during construction. -/
theorem construction_initial :
    init.m_state = State.Exited ∧ init.m_thread_joinable = false ∧
      init.workers = [] ∧ init.ctrl = CtrlPC.idle ∧
      ∀ i wl, step init (Lab.w i wl) = none := by
  refine ⟨rfl, rfl, rfl, rfl, ?_⟩
  intro i wl
  exact no_thread_step_of_allDone (by intro w hw; cases hw) i wl

/-- C5: when `run()` is called with the register already reading
`RunRequested`, the fast path at lines 89-90 returns immediately: the
complete call is the single `runFastHit` step, and it leaves the
configuration - register, worker threads, joinable flag and all - exactly
unchanged. -/
theorem run_fast_path_frame (c : Config) (h1 : c.ctrl = CtrlPC.idle)
    (h2 : c.m_state = State.RunRequested) :
    step c Lab.runFastHit = some c ∧
      ∀ c', step c Lab.runFastHit = some c' → c' = c := by
  constructor
  · simp [step, h1, h2]
  · intro c' hc'
    simp [step, h1, h2] at hc'
    exact hc'.symm

/-- C5 witness: the fast path applied at a concrete configuration. -/
theorem run_fast_path_frame_witness :
    step (Config.mk State.RunRequested [] false CtrlPC.idle)
        Lab.runFastHit =
      some (Config.mk State.RunRequested [] false CtrlPC.idle) ∧
    ∀ c', step (Config.mk State.RunRequested [] false CtrlPC.idle)
        Lab.runFastHit = some c' →
      c' = Config.mk State.RunRequested [] false CtrlPC.idle :=
  run_fast_path_frame _ rfl rfl

/-- C3 counterexample: calling `stop()` on a freshly constructed
instance (no live worker) runs to completion - exchange at line 98, no
notify, join skipped at line 108 - and leaves the register reading
`ExitRequested`, not `Exited` as the claim states. -/
theorem stop_not_exited_cex :
    steps init [Lab.stopExch, Lab.stopRet] =
      some (Config.mk State.ExitRequested [] false CtrlPC.idle) ∧
    State.ExitRequested ≠ State.Exited := by
  constructor
  · rfl
  · decide

/-- C8 counterexample: the purely sequential call sequence `construct;
stop(); run()` reaches `runSlowCase`'s exchange (line 115) with the
register reading `ExitRequested`; the captured previous value is then
`ExitRequested`, which is none of `RunRequested`, `Running`, `Sleeping`
- and not `Exited` either, so `BASSERT(oldState == Exited)` (line 125)
fails under purely sequential use. -/
theorem bassert_sequential_cex :
    steps init [Lab.stopExch, Lab.stopRet, Lab.runFastMiss] =
      some (Config.mk State.ExitRequested [] false CtrlPC.runSlow) ∧
    step (Config.mk State.ExitRequested [] false CtrlPC.runSlow)
        Lab.runExch =
      some (Config.mk State.RunRequested [] false CtrlPC.runSpawn) ∧
    State.ExitRequested ≠ State.RunRequested ∧
    State.ExitRequested ≠ State.Running ∧
    State.ExitRequested ≠ State.Sleeping ∧
    State.ExitRequested ≠ State.Exited := by
  refine ⟨rfl, rfl, ?_, ?_, ?_, ?_⟩ <;> decide

/-- C7 counterexample: from a reachable configuration in which the
callable is executing (`Running`, worker at `invoke`), `run()` is called
(so the register reads `RunRequested`), yet a subsequent `stop()` lets
the worker retire to `Exited` - via the failing second and third CAS and
the successful fourth CAS - without the callable ever being invoked
again (no `cas1T` label occurs in the continuation). -/
theorem run_while_running_cex :
    steps init
        [Lab.runFastMiss, Lab.runExch, Lab.runSpawnStep,
         Lab.w 0 WLab.cas1T] =
      some (Config.mk State.Running [ThreadPC.invoke] true CtrlPC.idle) ∧
    steps (Config.mk State.Running [ThreadPC.invoke] true CtrlPC.idle)
        [Lab.runFastMiss, Lab.runExch, Lab.w 0 WLab.invokeEnd,
         Lab.stopExch, Lab.w 0 WLab.cas2F, Lab.w 0 WLab.cas3F,
         Lab.w 0 WLab.cas4T, Lab.stopRet] =
      some (Config.mk State.Exited [ThreadPC.done] false CtrlPC.idle) ∧
    List.countP isInvokeStart
        [Lab.runFastMiss, Lab.runExch, Lab.w 0 WLab.invokeEnd,
         Lab.stopExch, Lab.w 0 WLab.cas2F, Lab.w 0 WLab.cas3F,
         Lab.w 0 WLab.cas4T, Lab.stopRet] = 0 := by
  refine ⟨rfl, rfl, ?_⟩
  decide

theorem step_w_none {c : Config} {i : Nat} {wl : WLab}
    (h : ∀ pc, c.workers.get? i = some pc →
      threadStep c.m_state pc wl = none) :
    step c (Lab.w i wl) = none := by
  simp only [step]
  cases hg : c.workers.get? i with
  | none => rfl
  | some pc => simp [h pc hg]

/-- C3 (amended): after any `stop()` call returns - the `stopRet` step,
enabled only once the join at line 109 can complete - no worker thread
of the instance is still running (all have returned from
`threadRunLoop`), and the register reads `Exited` or `ExitRequested`:
`Exited` exactly when a live worker observed the stop's exchange and
performed the `ExitRequested -> Exited` CAS, and `ExitRequested` when no
live worker existed (for instance when `stop()` is called on a fresh or
already-stopped instance). -/
theorem stop_postcondition (c c' : Config) (h : Reachable c)
    (hs : step c Lab.stopRet = some c') :
    (∀ w ∈ c'.workers, w = ThreadPC.done) ∧
      (c'.m_state = State.Exited ∨ c'.m_state = State.ExitRequested) := by
  have hI := reachable_inv h
  obtain ⟨reg, ws, jb, ct⟩ := c
  simp only [step] at hs
  split at hs
  · next hg =>
      cases hs
      obtain ⟨hctrl, hjr⟩ := hg
      have hctrl' : ct = CtrlPC.stopJoin := hctrl
      subst hctrl'
      constructor
      · cases hj : jb with
        | false => exact hI.notJoinableDone hj
        | true =>
            subst hj
            have hjr' :
                (match ws.head? with
                 | some ThreadPC.done => true
                 | _ => false) = true := by
              have hjr2 := hjr
              simp only [joinReady, Bool.not_true, Bool.false_or] at hjr2
              exact hjr2
            cases hws : ws with
            | nil => intro w hwm; cases hwm
            | cons a t =>
                have ha : a = ThreadPC.done := by
                  cases a <;> simp_all
                intro w hwm
                rcases List.mem_cons.mp hwm with h0 | h0
                · rw [h0, ha]
                · exact hI.tailDone w (by rw [hws]; exact h0)
      · rcases hI.stopReg (Or.inr rfl) with h0 | h0
        · exact Or.inr h0
        · exact Or.inl h0
  · cases hs

/-- C3 (amended) witness: a `stop()` completing on the freshly
constructed instance. -/
theorem stop_postcondition_witness :
    (∀ w ∈ (Config.mk State.ExitRequested [] false CtrlPC.idle).workers,
        w = ThreadPC.done) ∧
      ((Config.mk State.ExitRequested [] false CtrlPC.idle).m_state =
          State.Exited ∨
        (Config.mk State.ExitRequested [] false CtrlPC.idle).m_state =
          State.ExitRequested) :=
  stop_postcondition
    (Config.mk State.ExitRequested [] false CtrlPC.stopJoin)
    (Config.mk State.ExitRequested [] false CtrlPC.idle)
    ⟨[Lab.stopExch], rfl⟩ rfl

/-- C4: `runSlowCase` (lines 112-129) exchanges the register to
`RunRequested` and acts solely on the captured previous value: previous
`RunRequested` or `Running` means no further action (return at line
117); previous `Sleeping` means the wait mutex is taken, the condition
notified, and the call returns (lines 119-123); previous `Exited` means
a fresh worker thread running `threadRunLoop` is spawned, any prior
joinable handle having been detached (lines 126-128). -/
theorem runSlowCase_action (c : Config) (h : c.ctrl = CtrlPC.runSlow) :
    step c Lab.runExch =
      some { c with m_state := State.RunRequested,
                    ctrl := runSlowDest c.m_state } ∧
    ((c.m_state = State.RunRequested ∨ c.m_state = State.Running) →
      runSlowDest c.m_state = CtrlPC.idle) ∧
    (c.m_state = State.Sleeping →
      runSlowDest c.m_state = CtrlPC.runNotify ∧
      ∀ d : Config, d.ctrl = CtrlPC.runNotify →
        step d Lab.runNotifyStep = some { d with ctrl := CtrlPC.idle }) ∧
    (c.m_state = State.Exited →
      runSlowDest c.m_state = CtrlPC.runSpawn ∧
      ∀ d : Config, d.ctrl = CtrlPC.runSpawn →
        step d Lab.runSpawnStep =
          some { d with ctrl := CtrlPC.idle,
                        workers := ThreadPC.cas1 :: d.workers,
                        m_thread_joinable := true }) := by
  refine ⟨by simp [step, h], ?_, ?_, ?_⟩
  · intro hx
    rcases hx with hx | hx <;> rw [hx] <;> rfl
  · intro hx
    refine ⟨by rw [hx]; rfl, ?_⟩
    intro d hd
    simp [step, hd]
  · intro hx
    refine ⟨by rw [hx]; rfl, ?_⟩
    intro d hd
    simp [step, hd]

/-- C4 witness: the slow path applied at a concrete configuration whose
register reads `Sleeping`. -/
theorem runSlowCase_action_witness :
    step (Config.mk State.Sleeping [ThreadPC.sleeping] true CtrlPC.runSlow)
        Lab.runExch =
      some { Config.mk State.Sleeping [ThreadPC.sleeping] true
              CtrlPC.runSlow with
             m_state := State.RunRequested,
             ctrl := runSlowDest (Config.mk State.Sleeping
               [ThreadPC.sleeping] true CtrlPC.runSlow).m_state } ∧
    (((Config.mk State.Sleeping [ThreadPC.sleeping] true
          CtrlPC.runSlow).m_state = State.RunRequested ∨
      (Config.mk State.Sleeping [ThreadPC.sleeping] true
          CtrlPC.runSlow).m_state = State.Running) →
      runSlowDest (Config.mk State.Sleeping [ThreadPC.sleeping] true
          CtrlPC.runSlow).m_state = CtrlPC.idle) ∧
    ((Config.mk State.Sleeping [ThreadPC.sleeping] true
        CtrlPC.runSlow).m_state = State.Sleeping →
      runSlowDest (Config.mk State.Sleeping [ThreadPC.sleeping] true
          CtrlPC.runSlow).m_state = CtrlPC.runNotify ∧
      ∀ d : Config, d.ctrl = CtrlPC.runNotify →
        step d Lab.runNotifyStep = some { d with ctrl := CtrlPC.idle }) ∧
    ((Config.mk State.Sleeping [ThreadPC.sleeping] true
        CtrlPC.runSlow).m_state = State.Exited →
      runSlowDest (Config.mk State.Sleeping [ThreadPC.sleeping] true
          CtrlPC.runSlow).m_state = CtrlPC.runSpawn ∧
      ∀ d : Config, d.ctrl = CtrlPC.runSpawn →
        step d Lab.runSpawnStep =
          some { d with ctrl := CtrlPC.idle,
                        workers := ThreadPC.cas1 :: d.workers,
                        m_thread_joinable := true }) :=
  runSlowCase_action _ rfl

/-- C1: in every reachable configuration the work callable is never in
flight twice at once - at most one worker thread stands at `invoke`;
an invocation can begin only through a successful CAS of the register
from `RunRequested` to `Running` (line 149); and while an invocation is
in flight no further invocation can begin (every `cas1T` step is
disabled), so the next invocation cannot start before the previous one
has returned. -/
theorem no_concurrent_invocation (c : Config) (h : Reachable c) :
    c.workers.countP (fun w => decide (w = ThreadPC.invoke)) ≤ 1 ∧
    (∀ i c', step c (Lab.w i WLab.cas1T) = some c' →
      c.m_state = State.RunRequested ∧ c'.m_state = State.Running) ∧
    (ThreadPC.invoke ∈ c.workers →
      ∀ i, step c (Lab.w i WLab.cas1T) = none) := by
  have hI := reachable_inv h
  refine ⟨?_, ?_, ?_⟩
  · cases hws : c.workers with
    | nil => simp
    | cons a t =>
        have ht : ∀ w ∈ t, w = ThreadPC.done := by
          intro w hw
          exact hI.tailDone w (by rw [hws]; exact hw)
        rw [List.countP_cons, countP_invoke_zero_of_allDone t ht]
        by_cases hA : a = ThreadPC.invoke <;> simp [hA]
  · intro i c' hstep
    simp only [step, Option.bind_eq_some, Option.map_eq_some'] at hstep
    obtain ⟨pc, hg, rp, hw, hc'⟩ := hstep
    have hw' : threadStep c.m_state pc WLab.cas1T = some (rp.1, rp.2) := hw
    rcases threadStep_cases hw' with
      ⟨_, _, hreg, hs, _⟩ | ⟨_, hwl, _⟩ | ⟨_, hwl, _⟩ | ⟨_, hwl, _⟩ |
      ⟨_, hwl, _⟩ | ⟨_, hwl, _⟩ | ⟨_, hwl, _⟩ | ⟨_, hwl, _⟩ |
      ⟨_, hwl, _⟩ | ⟨_, hwl, _⟩
    · refine ⟨hreg, ?_⟩
      rw [← hc']
      exact hs
    all_goals cases hwl
  · intro hmem i
    apply step_w_none
    intro pc hg
    cases hws : c.workers with
    | nil => rw [hws] at hg; simp [List.get?] at hg
    | cons a t =>
        rw [hws] at hmem
        have ha : a = ThreadPC.invoke := by
          rcases List.mem_cons.mp hmem with h0 | h0
          · exact h0.symm
          · exact absurd (hI.tailDone _ (by rw [hws]; exact h0)) (by decide)
        rw [hws] at hg
        cases i with
        | zero =>
            simp only [List.get?, Option.some.injEq] at hg
            rw [← hg, ha]
            rfl
        | succ m =>
            simp only [List.get?] at hg
            have hd : pc = ThreadPC.done :=
              hI.tailDone pc (by rw [hws]; exact mem_of_get?_eq hg)
            rw [hd]
            exact threadStep_done _ _

/-- C1 witness: a reachable configuration with an invocation in
flight. -/
theorem no_concurrent_invocation_witness :
    (Config.mk State.Running [ThreadPC.invoke] true
        CtrlPC.idle).workers.countP
        (fun w => decide (w = ThreadPC.invoke)) ≤ 1 ∧
    (∀ i c', step (Config.mk State.Running [ThreadPC.invoke] true
        CtrlPC.idle) (Lab.w i WLab.cas1T) = some c' →
      (Config.mk State.Running [ThreadPC.invoke] true
        CtrlPC.idle).m_state = State.RunRequested ∧
      c'.m_state = State.Running) ∧
    (ThreadPC.invoke ∈ (Config.mk State.Running [ThreadPC.invoke] true
        CtrlPC.idle).workers →
      ∀ i, step (Config.mk State.Running [ThreadPC.invoke] true
        CtrlPC.idle) (Lab.w i WLab.cas1T) = none) :=
  no_concurrent_invocation _
    ⟨[Lab.runFastMiss, Lab.runExch, Lab.runSpawnStep,
      Lab.w 0 WLab.cas1T], rfl⟩

/-- C2: the worker-loop body (lines 147-165) is four ordered CAS
attempts: (1) `RunRequested -> Running`, on success invoking the
callable (worker proceeds to `invoke`); (2) `Running -> Sleeping`, on
success entering the timed predicate wait, on failure falling through
without sleeping; (3) `Sleeping -> Exited`, on success returning; (4)
`ExitRequested -> Exited`, on success returning; and in any reachable
configuration, when the fourth attempt also fails the register holds
`RunRequested` at that instant, still holds it afterwards, and the
worker is back at the first attempt (the loop repeats from step 1). -/
theorem worker_loop_four_cas (c : Config) (h : Reachable c) :
    (∀ s, threadStep s ThreadPC.cas1 WLab.cas1T =
      if s = State.RunRequested then
        some (State.Running, ThreadPC.invoke) else none) ∧
    (∀ s, s ≠ State.RunRequested →
      threadStep s ThreadPC.cas1 WLab.cas1F = some (s, ThreadPC.cas2)) ∧
    (∀ s, threadStep s ThreadPC.cas2 WLab.cas2T =
      if s = State.Running then
        some (State.Sleeping, ThreadPC.sleeping) else none) ∧
    (∀ s, s ≠ State.Running →
      threadStep s ThreadPC.cas2 WLab.cas2F = some (s, ThreadPC.cas3)) ∧
    (∀ s, threadStep s ThreadPC.cas3 WLab.cas3T =
      if s = State.Sleeping then
        some (State.Exited, ThreadPC.done) else none) ∧
    (∀ s, s ≠ State.Sleeping →
      threadStep s ThreadPC.cas3 WLab.cas3F = some (s, ThreadPC.cas4)) ∧
    (∀ s, threadStep s ThreadPC.cas4 WLab.cas4T =
      if s = State.ExitRequested then
        some (State.Exited, ThreadPC.done) else none) ∧
    (∀ i c', step c (Lab.w i WLab.cas4F) = some c' →
      c.m_state = State.RunRequested ∧
      c'.m_state = State.RunRequested ∧
      c'.workers.get? i = some ThreadPC.cas1) := by
  have hI := reachable_inv h
  refine ⟨fun s => rfl, fun s hs => by simp [threadStep, hs],
    fun s => rfl, fun s hs => by simp [threadStep, hs],
    fun s => rfl, fun s hs => by simp [threadStep, hs],
    fun s => rfl, ?_⟩
  intro i c' hstep
  obtain ⟨pc, t, s', pc', hws, hi0, hw, hc'⟩ := step_w_elim hI hstep
  subst hi0
  rcases threadStep_cases hw with
    ⟨_, hwl, _⟩ | ⟨_, hwl, _⟩ | ⟨_, hwl, _⟩ | ⟨_, hwl, _⟩ |
    ⟨_, hwl, _⟩ | ⟨_, hwl, _⟩ | ⟨_, hwl, _⟩ | ⟨_, hwl, _⟩ |
    ⟨_, hwl, _⟩ | ⟨hpc, _, hreg, hs, hp⟩
  · cases hwl
  · cases hwl
  · cases hwl
  · cases hwl
  · cases hwl
  · cases hwl
  · cases hwl
  · cases hwl
  · cases hwl
  · subst hpc
    have hco : c.m_state = State.RunRequested ∨
        c.m_state = State.ExitRequested :=
      hI.headOK ThreadPC.cas4 (by rw [hws]; rfl)
    have hregR : c.m_state = State.RunRequested := by
      rcases hco with h0 | h0
      · exact h0
      · exact absurd h0 hreg
    refine ⟨hregR, ?_, ?_⟩
    · rw [hc']
      exact hs.trans hregR
    · rw [hc', hp]
      rfl

/-- C2 witness: a reachable configuration whose worker stands at the
fourth CAS with a run request pending. -/
theorem worker_loop_four_cas_witness :
    (∀ s, threadStep s ThreadPC.cas1 WLab.cas1T =
      if s = State.RunRequested then
        some (State.Running, ThreadPC.invoke) else none) ∧
    (∀ s, s ≠ State.RunRequested →
      threadStep s ThreadPC.cas1 WLab.cas1F = some (s, ThreadPC.cas2)) ∧
    (∀ s, threadStep s ThreadPC.cas2 WLab.cas2T =
      if s = State.Running then
        some (State.Sleeping, ThreadPC.sleeping) else none) ∧
    (∀ s, s ≠ State.Running →
      threadStep s ThreadPC.cas2 WLab.cas2F = some (s, ThreadPC.cas3)) ∧
    (∀ s, threadStep s ThreadPC.cas3 WLab.cas3T =
      if s = State.Sleeping then
        some (State.Exited, ThreadPC.done) else none) ∧
    (∀ s, s ≠ State.Sleeping →
      threadStep s ThreadPC.cas3 WLab.cas3F = some (s, ThreadPC.cas4)) ∧
    (∀ s, threadStep s ThreadPC.cas4 WLab.cas4T =
      if s = State.ExitRequested then
        some (State.Exited, ThreadPC.done) else none) ∧
    (∀ i c', step (Config.mk State.RunRequested [ThreadPC.cas4] true
        CtrlPC.idle) (Lab.w i WLab.cas4F) = some c' →
      (Config.mk State.RunRequested [ThreadPC.cas4] true
        CtrlPC.idle).m_state = State.RunRequested ∧
      c'.m_state = State.RunRequested ∧
      c'.workers.get? i = some ThreadPC.cas1) :=
  worker_loop_four_cas _
    ⟨[Lab.runFastMiss, Lab.runExch, Lab.runSpawnStep, Lab.w 0 WLab.cas1T,
      Lab.w 0 WLab.invokeEnd, Lab.runFastMiss, Lab.runExch,
      Lab.w 0 WLab.cas2F, Lab.w 0 WLab.cas3F], rfl⟩

/-- C6: `stop()` is idempotent.  After a first `stop()` returns,
`m_thread` is no longer joinable (so the second call's join branch at
line 108 is skipped - no double join); the second `stop()` runs to
completion immediately (its join guard holds at once, so no deadlock);
and no worker micro-step is enabled after the first call or after the
second, so the work callable is not invoked between or after the two
calls. -/
theorem stop_idempotent (c c1 : Config) (h : Reachable c)
    (hs : step c Lab.stopRet = some c1) :
    c1.m_thread_joinable = false ∧
    steps c1 [Lab.stopExch, Lab.stopRet] =
      some { c1 with m_state := State.ExitRequested } ∧
    (∀ i wl, step c1 (Lab.w i wl) = none) ∧
    (∀ i wl, step { c1 with m_state := State.ExitRequested }
        (Lab.w i wl) = none) := by
  have hI := reachable_inv h
  obtain ⟨reg, ws, jb, ct⟩ := c
  simp only [step] at hs
  split at hs
  · next hg =>
      cases hs
      obtain ⟨hctrl, hjr⟩ := hg
      have hctrl' : ct = CtrlPC.stopJoin := hctrl
      subst hctrl'
      have hall : ∀ w ∈ ws, w = ThreadPC.done := by
        cases hj : jb with
        | false => exact hI.notJoinableDone hj
        | true =>
            subst hj
            have hjr' :
                (match ws.head? with
                 | some ThreadPC.done => true
                 | _ => false) = true := by
              have hjr2 := hjr
              simp only [joinReady, Bool.not_true, Bool.false_or] at hjr2
              exact hjr2
            cases hws : ws with
            | nil => intro w hwm; cases hwm
            | cons a t =>
                have ha : a = ThreadPC.done := by
                  cases a <;> simp_all
                intro w hwm
                rcases List.mem_cons.mp hwm with h0 | h0
                · rw [h0, ha]
                · exact hI.tailDone w (by rw [hws]; exact h0)
      have hregOK : reg = State.ExitRequested ∨ reg = State.Exited :=
        hI.stopReg (Or.inr rfl)
      refine ⟨rfl, ?_, ?_, ?_⟩
      · rcases hregOK with h0 | h0 <;> subst h0 <;> rfl
      · intro i wl
        exact no_thread_step_of_allDone hall i wl
      · intro i wl
        exact no_thread_step_of_allDone hall i wl
  · cases hs

/-- C6 witness: two consecutive `stop()` calls on the freshly
constructed instance. -/
theorem stop_idempotent_witness :
    (Config.mk State.ExitRequested [] false
        CtrlPC.idle).m_thread_joinable = false ∧
    steps (Config.mk State.ExitRequested [] false CtrlPC.idle)
        [Lab.stopExch, Lab.stopRet] =
      some (Config.mk State.ExitRequested [] false CtrlPC.idle) ∧
    (∀ i wl, step (Config.mk State.ExitRequested [] false CtrlPC.idle)
        (Lab.w i wl) = none) ∧
    (∀ i wl, step (Config.mk State.ExitRequested [] false CtrlPC.idle)
        (Lab.w i wl) = none) :=
  stop_idempotent (Config.mk State.ExitRequested [] false CtrlPC.stopJoin)
    (Config.mk State.ExitRequested [] false CtrlPC.idle)
    ⟨[Lab.stopExch], rfl⟩ rfl

/-- One no-stop, no-new-invocation step keeps a pending run request
pending: the register still reads `RunRequested` afterwards. -/
theorem runRequested_preserved {c c1 : Config} {l : Lab}
    (h : c.m_state = State.RunRequested) (hl1 : l ≠ Lab.stopExch)
    (hl2 : isInvokeStart l = false) (hstep : step c l = some c1) :
    c1.m_state = State.RunRequested := by
  cases l with
  | w i wl =>
      simp only [step, Option.bind_eq_some, Option.map_eq_some'] at hstep
      obtain ⟨pc, hg, rp, hw, hc'⟩ := hstep
      have hw' : threadStep c.m_state pc wl = some (rp.1, rp.2) := hw
      rcases threadStep_cases hw' with
        ⟨_, hwl, _⟩ | ⟨_, _, _, hs, _⟩ | ⟨_, _, hs, _⟩ |
        ⟨_, _, hreg, _, _⟩ | ⟨_, _, _, hs, _⟩ | ⟨_, _, hs, _⟩ |
        ⟨_, _, hreg, _, _⟩ | ⟨_, _, _, hs, _⟩ |
        ⟨_, _, hreg, _, _⟩ | ⟨_, _, _, hs, _⟩
      · subst hwl; simp [isInvokeStart] at hl2
      · rw [← hc']; exact hs.trans h
      · rw [← hc']; exact hs.trans h
      · rw [h] at hreg; cases hreg
      · rw [← hc']; exact hs.trans h
      · rw [← hc']; exact hs.trans h
      · rw [h] at hreg; cases hreg
      · rw [← hc']; exact hs.trans h
      · rw [h] at hreg; cases hreg
      · rw [← hc']; exact hs.trans h
  | runFastHit =>
      simp only [step] at hstep
      split at hstep
      · cases hstep; exact h
      · cases hstep
  | runFastMiss =>
      simp only [step] at hstep
      split at hstep
      · next hgd => exact absurd h hgd.2
      · cases hstep
  | runExch =>
      simp only [step] at hstep
      split at hstep
      · cases hstep; rfl
      · cases hstep
  | runNotifyStep =>
      simp only [step] at hstep
      split at hstep
      · cases hstep; exact h
      · cases hstep
  | runSpawnStep =>
      simp only [step] at hstep
      split at hstep
      · cases hstep; exact h
      · cases hstep
  | stopExch => exact absurd rfl hl1
  | stopNotifyStep =>
      simp only [step] at hstep
      split at hstep
      · cases hstep; exact h
      · cases hstep
  | stopRet =>
      simp only [step] at hstep
      split at hstep
      · cases hstep; exact h
      · cases hstep

/-- C7 (amended): once the register reads `RunRequested` (as it does
after `run()`'s exchange while an invocation is in flight), then along
any continuation that contains no `stop()` exchange and no new
invocation start, the register keeps reading `RunRequested`; hence the
`Running -> Sleeping` CAS, the `Sleeping -> Exited` CAS and the
`ExitRequested -> Exited` CAS are all disabled - the worker cannot go to
sleep or exit before the callable is invoked at least once more, unless
`stop()` intervenes (which, as the counterexample shows, can retire the
worker without a further invocation). -/
theorem pending_run_blocks_idle (c : Config)
    (h : c.m_state = State.RunRequested) (L : List Lab)
    (hL : ∀ l ∈ L, l ≠ Lab.stopExch ∧ isInvokeStart l = false)
    (c' : Config) (hsteps : steps c L = some c') :
    c'.m_state = State.RunRequested ∧
    ∀ i, step c' (Lab.w i WLab.cas2T) = none ∧
      step c' (Lab.w i WLab.cas3T) = none ∧
      step c' (Lab.w i WLab.cas4T) = none := by
  have hreg : c'.m_state = State.RunRequested := by
    induction L generalizing c with
    | nil => cases hsteps; exact h
    | cons l ls ih =>
        simp only [steps] at hsteps
        cases hstep : step c l with
        | none => rw [hstep] at hsteps; cases hsteps
        | some c1 =>
            rw [hstep] at hsteps
            have hl := hL l (List.mem_cons_self l ls)
            exact ih c1 (runRequested_preserved h hl.1 hl.2 hstep)
              (fun x hx => hL x (List.mem_cons_of_mem _ hx)) hsteps
  refine ⟨hreg, ?_⟩
  intro i
  refine ⟨?_, ?_, ?_⟩ <;> apply step_w_none <;> intro pc hg <;>
    rw [hreg] <;> cases pc <;> rfl

/-- C7 (amended) witness: a pending request with the worker at the
second CAS. -/
theorem pending_run_blocks_idle_witness :
    (Config.mk State.RunRequested [ThreadPC.cas3] true
        CtrlPC.idle).m_state = State.RunRequested ∧
    ∀ i, step (Config.mk State.RunRequested [ThreadPC.cas3] true
        CtrlPC.idle) (Lab.w i WLab.cas2T) = none ∧
      step (Config.mk State.RunRequested [ThreadPC.cas3] true
        CtrlPC.idle) (Lab.w i WLab.cas3T) = none ∧
      step (Config.mk State.RunRequested [ThreadPC.cas3] true
        CtrlPC.idle) (Lab.w i WLab.cas4T) = none :=
  pending_run_blocks_idle
    (Config.mk State.RunRequested [ThreadPC.cas2] true CtrlPC.idle) rfl
    [Lab.w 0 WLab.cas2F] (by decide)
    (Config.mk State.RunRequested [ThreadPC.cas3] true CtrlPC.idle) rfl

/-- One step taken by anything other than `stop()`'s exchange never
stores `ExitRequested` in the register. -/
theorem no_exitRequested_preserved {c c1 : Config} {l : Lab}
    (h : c.m_state ≠ State.ExitRequested) (hl : l ≠ Lab.stopExch)
    (hstep : step c l = some c1) :
    c1.m_state ≠ State.ExitRequested := by
  cases l with
  | w i wl =>
      simp only [step, Option.bind_eq_some, Option.map_eq_some'] at hstep
      obtain ⟨pc, hg, rp, hw, hc'⟩ := hstep
      have hw' : threadStep c.m_state pc wl = some (rp.1, rp.2) := hw
      rcases threadStep_cases hw' with
        ⟨_, _, _, hs, _⟩ | ⟨_, _, _, hs, _⟩ | ⟨_, _, hs, _⟩ |
        ⟨_, _, _, hs, _⟩ | ⟨_, _, _, hs, _⟩ | ⟨_, _, hs, _⟩ |
        ⟨_, _, _, hs, _⟩ | ⟨_, _, _, hs, _⟩ |
        ⟨_, _, _, hs, _⟩ | ⟨_, _, _, hs, _⟩
      · rw [← hc']; intro hx; cases hs.symm.trans hx
      · rw [← hc']; intro hx; exact h (hs.symm.trans hx)
      · rw [← hc']; intro hx; exact h (hs.symm.trans hx)
      · rw [← hc']; intro hx; cases hs.symm.trans hx
      · rw [← hc']; intro hx; exact h (hs.symm.trans hx)
      · rw [← hc']; intro hx; exact h (hs.symm.trans hx)
      · rw [← hc']; intro hx; cases hs.symm.trans hx
      · rw [← hc']; intro hx; exact h (hs.symm.trans hx)
      · rw [← hc']; intro hx; cases hs.symm.trans hx
      · rw [← hc']; intro hx; exact h (hs.symm.trans hx)
  | runFastHit =>
      simp only [step] at hstep
      split at hstep
      · cases hstep; exact h
      · cases hstep
  | runFastMiss =>
      simp only [step] at hstep
      split at hstep
      · cases hstep; exact h
      · cases hstep
  | runExch =>
      simp only [step] at hstep
      split at hstep
      · cases hstep; intro hx; cases hx
      · cases hstep
  | runNotifyStep =>
      simp only [step] at hstep
      split at hstep
      · cases hstep; exact h
      · cases hstep
  | runSpawnStep =>
      simp only [step] at hstep
      split at hstep
      · cases hstep; exact h
      · cases hstep
  | stopExch => exact absurd rfl hl
  | stopNotifyStep =>
      simp only [step] at hstep
      split at hstep
      · cases hstep; exact h
      · cases hstep
  | stopRet =>
      simp only [step] at hstep
      split at hstep
      · cases hstep; exact h
      · cases hstep

theorem steps_no_exitRequested {c c' : Config} (L : List Lab)
    (h : c.m_state ≠ State.ExitRequested)
    (hL : ∀ l ∈ L, l ≠ Lab.stopExch) (hsteps : steps c L = some c') :
    c'.m_state ≠ State.ExitRequested := by
  induction L generalizing c with
  | nil => cases hsteps; exact h
  | cons l ls ih =>
      simp only [steps] at hsteps
      cases hstep : step c l with
      | none => rw [hstep] at hsteps; cases hsteps
      | some c1 =>
          rw [hstep] at hsteps
          exact ih
            (no_exitRequested_preserved h (hL l (List.mem_cons_self l ls))
              hstep)
            (fun x hx => hL x (List.mem_cons_of_mem _ hx)) hsteps

/-- C8 (amended): along any sequential execution in which `stop()` is
never called, whenever `runSlowCase`'s exchange is reached with the
register reading none of `RunRequested`, `Running`, `Sleeping`, the
register reads `Exited` - so `BASSERT(oldState == Exited)` holds.  As
the counterexample shows, the restriction to stop-free histories is
necessary: after a `stop()` that found no live worker, a sequential
`run()` captures `ExitRequested` and the assertion fails. -/
theorem runSlow_prev_exited_no_stop (L : List Lab) (c : Config)
    (hL : ∀ l ∈ L, l ≠ Lab.stopExch) (hsteps : steps init L = some c)
    (_hctrl : c.ctrl = CtrlPC.runSlow)
    (h1 : c.m_state ≠ State.RunRequested)
    (h2 : c.m_state ≠ State.Running)
    (h3 : c.m_state ≠ State.Sleeping) :
    c.m_state = State.Exited := by
  have h4 : c.m_state ≠ State.ExitRequested :=
    steps_no_exitRequested L (by intro hx; cases hx) hL hsteps
  cases hm : c.m_state with
  | Exited => rfl
  | ExitRequested => exact absurd hm h4
  | Sleeping => exact absurd hm h3
  | Running => exact absurd hm h2
  | RunRequested => exact absurd hm h1

/-- C8 (amended) witness: a stop-free history reaching the slow path
with the register reading `Exited`. -/
theorem runSlow_prev_exited_no_stop_witness :
    (Config.mk State.Exited [] false CtrlPC.runSlow).m_state =
      State.Exited :=
  runSlow_prev_exited_no_stop [Lab.runFastMiss]
    (Config.mk State.Exited [] false CtrlPC.runSlow) (by decide) rfl rfl
    (by decide) (by decide) (by decide)

/-- C10: writer discipline.  Whenever a step changes the register, a
worker-thread step only ever stores `Running`, `Sleeping` or `Exited`
(lines 149, 153, 159, 163); a `run()` step only ever stores
`RunRequested` (line 115); and a `stop()` step only ever stores
`ExitRequested` (line 98).  The request states are introduced only by
controller calls and the progress states only by the worker thread. -/
theorem writer_discipline (c : Config) (l : Lab) (c' : Config)
    (hstep : step c l = some c') (hne : c'.m_state ≠ c.m_state) :
    (isThreadLab l = true →
      c'.m_state = State.Running ∨ c'.m_state = State.Sleeping ∨
        c'.m_state = State.Exited) ∧
    (isRunLab l = true → c'.m_state = State.RunRequested) ∧
    (isStopLab l = true → c'.m_state = State.ExitRequested) := by
  cases l with
  | w i wl =>
      refine ⟨?_, ?_, ?_⟩
      · intro _
        simp only [step, Option.bind_eq_some, Option.map_eq_some'] at hstep
        obtain ⟨pc, hg, rp, hw, hc'⟩ := hstep
        have hw' : threadStep c.m_state pc wl = some (rp.1, rp.2) := hw
        rcases threadStep_cases hw' with
          ⟨_, _, _, hs, _⟩ | ⟨_, _, _, hs, _⟩ | ⟨_, _, hs, _⟩ |
          ⟨_, _, _, hs, _⟩ | ⟨_, _, _, hs, _⟩ | ⟨_, _, hs, _⟩ |
          ⟨_, _, _, hs, _⟩ | ⟨_, _, _, hs, _⟩ |
          ⟨_, _, _, hs, _⟩ | ⟨_, _, _, hs, _⟩
        · left; rw [← hc']; exact hs
        · exact absurd (by rw [← hc']; exact hs) hne
        · exact absurd (by rw [← hc']; exact hs) hne
        · right; left; rw [← hc']; exact hs
        · exact absurd (by rw [← hc']; exact hs) hne
        · exact absurd (by rw [← hc']; exact hs) hne
        · right; right; rw [← hc']; exact hs
        · exact absurd (by rw [← hc']; exact hs) hne
        · right; right; rw [← hc']; exact hs
        · exact absurd (by rw [← hc']; exact hs) hne
      · intro hh; cases hh
      · intro hh; cases hh
  | runFastHit =>
      simp only [step] at hstep
      split at hstep
      · cases hstep; exact absurd rfl hne
      · cases hstep
  | runFastMiss =>
      simp only [step] at hstep
      split at hstep
      · cases hstep; exact absurd rfl hne
      · cases hstep
  | runExch =>
      simp only [step] at hstep
      split at hstep
      · cases hstep
        refine ⟨?_, ?_, ?_⟩
        · intro hh; cases hh
        · intro _; rfl
        · intro hh; cases hh
      · cases hstep
  | runNotifyStep =>
      simp only [step] at hstep
      split at hstep
      · cases hstep; exact absurd rfl hne
      · cases hstep
  | runSpawnStep =>
      simp only [step] at hstep
      split at hstep
      · cases hstep; exact absurd rfl hne
      · cases hstep
  | stopExch =>
      simp only [step] at hstep
      split at hstep
      · cases hstep
        refine ⟨?_, ?_, ?_⟩
        · intro hh; cases hh
        · intro hh; cases hh
        · intro _; rfl
      · cases hstep
  | stopNotifyStep =>
      simp only [step] at hstep
      split at hstep
      · cases hstep; exact absurd rfl hne
      · cases hstep
  | stopRet =>
      simp only [step] at hstep
      split at hstep
      · cases hstep; exact absurd rfl hne
      · cases hstep

/-- C10 witness: the `stop()` exchange on the fresh instance changes the
register to `ExitRequested`. -/
theorem writer_discipline_witness :
    (isThreadLab Lab.stopExch = true →
      (Config.mk State.ExitRequested [] false CtrlPC.stopJoin).m_state =
          State.Running ∨
        (Config.mk State.ExitRequested [] false
            CtrlPC.stopJoin).m_state = State.Sleeping ∨
        (Config.mk State.ExitRequested [] false
            CtrlPC.stopJoin).m_state = State.Exited) ∧
    (isRunLab Lab.stopExch = true →
      (Config.mk State.ExitRequested [] false CtrlPC.stopJoin).m_state =
        State.RunRequested) ∧
    (isStopLab Lab.stopExch = true →
      (Config.mk State.ExitRequested [] false CtrlPC.stopJoin).m_state =
        State.ExitRequested) :=
  writer_discipline init Lab.stopExch
    (Config.mk State.ExitRequested [] false CtrlPC.stopJoin) rfl
    (by decide)

end AsyncTask
